import Mathlib

/-!
Verification of the H-QUIC game transport protocol (CS3103 Assignment 4).

Shallow embedding of the core components of the repository:
* the frame codec (`GameNetAPI.py` `GameClientProtocol.send_packet`,
  `GameServerProtocol.py` `GameServerProtocol._handle_packet`),
* the per-channel sequencers (`GameClientProtocol.send_packet`,
  `GameServerProtocol.send_packet`),
* the reliable-channel reorder/delivery engine
  (`GameServerProtocol._handle_packet` / `_deliver_reliable` / `_deliver_packet`),
* the protocol-level metrics (`GameServerProtocol._update_metrics`), and
* the application-level receiver (`server.py` `ChannelMetrics` /
  `ReceiverApplication.on_message`).

Machine integers are modelled as `Nat`/`Int` with explicit bounds; Python
byte strings as `List Nat` (each element a byte value); Python `dict`s as
association lists with update-or-insert semantics; wall-clock times as
opaque `Int` (milliseconds) or `ℚ` (seconds) parameters.
-/

namespace HQuic

/-! ### Frame codec

`GameClientProtocol.send_packet` (GameNetAPI.py lines 63-86) builds
`channel.to_bytes(1,"big") + seq_no.to_bytes(2,"big") +
timestamp.to_bytes(8,"big") + payload`; `GameServerProtocol._handle_packet`
(GameServerProtocol.py lines 61-70) reads the fields back from the same
positions. -/

/-- Big-endian byte encoding of `v` into `n` bytes, Python
`v.to_bytes(n, "big")` (defined for `v < 256 ^ n`). -/
def toBytesBE : Nat → Nat → List Nat
  | 0, _ => []
  | n + 1, v => toBytesBE n (v / 256) ++ [v % 256]

/-- Big-endian byte decoding, Python `int.from_bytes(bs, "big")`. -/
def fromBytesBE (bs : List Nat) : Nat :=
  bs.foldl (fun a b => a * 256 + b) 0

/-- Wire encoding of a frame: 1-byte channel tag, 2-byte big-endian seq,
8-byte big-endian millisecond timestamp, then the payload bytes
(GameNetAPI.py lines 70-75). -/
def encode (channel seq ts : Nat) (payload : List Nat) : List Nat :=
  toBytesBE 1 channel ++ toBytesBE 2 seq ++ toBytesBE 8 ts ++ payload

/-- Header-level decoding as performed by
`GameServerProtocol._handle_packet` (GameServerProtocol.py lines 61-70):
fails on inputs shorter than the 11-byte header, otherwise reads
`packet[0]`, `packet[1:3]`, `packet[3:11]`, `packet[11:]`. -/
def decode (packet : List Nat) : Option (Nat × Nat × Nat × List Nat) :=
  if packet.length < 11 then none
  else some (packet.headD 0,
    fromBytesBE ((packet.drop 1).take 2),
    fromBytesBE ((packet.drop 3).take 8),
    packet.drop 11)

@[simp]
theorem length_toBytesBE (n v : Nat) : (toBytesBE n v).length = n := by
  induction n generalizing v with
  | zero => rfl
  | succ n ih => simp [toBytesBE, ih]

theorem fromBytesBE_append_singleton (bs : List Nat) (b : Nat) :
    fromBytesBE (bs ++ [b]) = fromBytesBE bs * 256 + b := by
  simp [fromBytesBE, List.foldl_append]

theorem fromBytesBE_toBytesBE {n v : Nat} (h : v < 256 ^ n) :
    fromBytesBE (toBytesBE n v) = v := by
  induction n generalizing v with
  | zero =>
    have : v = 0 := Nat.lt_one_iff.mp (by simpa using h)
    subst this; rfl
  | succ n ih =>
    have hdiv : v / 256 < 256 ^ n := by
      rw [Nat.div_lt_iff_lt_mul (by norm_num : 0 < 256)]
      calc v < 256 ^ (n + 1) := h
        _ = 256 ^ n * 256 := by ring
    rw [toBytesBE, fromBytesBE_append_singleton, ih hdiv]
    omega

/-! ### Python dict as an association list

The reorder buffer `self.reliable_buffer` is a Python dict; we model it as
an association list with update-or-insert assignment.  Only its behaviour
as a finite map is used by the source (`seq_no in buffer`, indexing,
assignment, `pop`). -/

/-- Dict lookup, `m[k]` / `k in m`. -/
def lookupKV {κ β : Type} [DecidableEq κ] (k : κ) : List (κ × β) → Option β
  | [] => none
  | (k2, v) :: rest => if k = k2 then some v else lookupKV k rest

/-- Dict removal, `m.pop(k)`. -/
def eraseKV {κ β : Type} [DecidableEq κ] (k : κ) : List (κ × β) → List (κ × β)
  | [] => []
  | (k2, v) :: rest => if k = k2 then eraseKV k rest else (k2, v) :: eraseKV k rest

/-- Dict assignment, `m[k] = v` (update-or-insert). -/
def insertKV {κ β : Type} [DecidableEq κ] (k : κ) (v : β) (m : List (κ × β)) :
    List (κ × β) :=
  (k, v) :: eraseKV k m

variable {κ β : Type} [DecidableEq κ]

@[simp]
theorem lookupKV_nil (k : κ) : lookupKV (β := β) k [] = none := rfl

theorem lookupKV_eraseKV (k k2 : κ) (m : List (κ × β)) :
    lookupKV k (eraseKV k2 m) = if k = k2 then none else lookupKV k m := by
  induction m with
  | nil => by_cases h : k = k2 <;> simp [eraseKV, h]
  | cons hd tl ih =>
    obtain ⟨k3, v⟩ := hd
    show lookupKV k (if k2 = k3 then eraseKV k2 tl else (k3, v) :: eraseKV k2 tl) = _
    by_cases h3 : k2 = k3
    · rw [if_pos h3, ih]
      subst h3
      by_cases h : k = k2
      · rw [if_pos h, if_pos h]
      · rw [if_neg h, if_neg h, lookupKV, if_neg h]
    · rw [if_neg h3]
      by_cases h : k = k3
      · have hne : ¬k = k2 := fun he => h3 (he.symm.trans h)
        simp [lookupKV, h, hne]
        exact fun he => h3 he.symm
      · simp [lookupKV, h, ih]

theorem lookupKV_insertKV (k k2 : κ) (v : β) (m : List (κ × β)) :
    lookupKV k (insertKV k2 v m) = if k = k2 then some v else lookupKV k m := by
  by_cases h : k = k2 <;> simp [insertKV, lookupKV, h, lookupKV_eraseKV]

theorem length_eraseKV_le (k : κ) (m : List (κ × β)) :
    (eraseKV k m).length ≤ m.length := by
  induction m with
  | nil => simp [eraseKV]
  | cons hd tl ih =>
    obtain ⟨k2, w⟩ := hd
    show (if k = k2 then eraseKV k tl else (k2, w) :: eraseKV k tl).length ≤ tl.length + 1
    by_cases h : k = k2
    · rw [if_pos h]
      subst h
      omega
    · rw [if_neg h]
      simp only [List.length_cons]
      omega

theorem length_eraseKV_lt {k : κ} {m : List (κ × β)} {v : β}
    (h : lookupKV k m = some v) : (eraseKV k m).length < m.length := by
  induction m with
  | nil => simp [lookupKV] at h
  | cons hd tl ih =>
    obtain ⟨k2, w⟩ := hd
    by_cases hk : k = k2
    · subst hk
      simp only [eraseKV, if_pos rfl, List.length_cons]
      exact Nat.lt_succ_of_le (length_eraseKV_le k tl)
    · simp only [lookupKV, if_neg hk] at h
      have hne : ¬k = k2 := hk
      simp only [eraseKV, if_neg hne, List.length_cons]
      exact Nat.succ_lt_succ (ih h)

/-! ### The reliable drain loop

`GameServerProtocol._deliver_reliable` (GameServerProtocol.py lines 87-91):
`while expected_seq in reliable_buffer: pop and deliver, expected_seq += 1`.
The loop terminates because each iteration removes one buffer entry; we
realise it with a fuel bounded by the buffer size, which always suffices. -/

/-- One fuel-indexed unrolling of the `_deliver_reliable` loop.  Returns
the list of popped `(seq, value)` entries in delivery order, the remaining
buffer, and the final `expected_seq`. -/
def drainF {β : Type} : Nat → List (Nat × β) → Nat → List (Nat × β) × List (Nat × β) × Nat
  | 0, m, e => ([], m, e)
  | fuel + 1, m, e =>
    match lookupKV e m with
    | none => ([], m, e)
    | some v =>
      let r := drainF fuel (eraseKV e m) (e + 1)
      ((e, v) :: r.1, r.2)

/-- The `_deliver_reliable` loop: drain the contiguous front of the
reorder buffer starting at `expected_seq`. -/
def drain {β : Type} (m : List (Nat × β)) (e : Nat) :
    List (Nat × β) × List (Nat × β) × Nat :=
  drainF m.length m e

theorem drainF_congr {β : Type} :
    ∀ (n : Nat) (m : List (Nat × β)) (e n2 : Nat), m.length ≤ n → m.length ≤ n2 →
      drainF n m e = drainF n2 m e := by
  intro n
  induction n with
  | zero =>
    intro m e n2 h1 _
    have : m = [] := List.length_eq_zero.mp (Nat.le_zero.mp h1)
    subst this
    cases n2 <;> simp [drainF]
  | succ n ih =>
    intro m e n2 h1 h2
    cases n2 with
    | zero =>
      have : m = [] := List.length_eq_zero.mp (Nat.le_zero.mp h2)
      subst this
      simp [drainF]
    | succ n2 =>
      show (match lookupKV e m with
        | none => ([], m, e)
        | some v => let r := drainF n (eraseKV e m) (e + 1); ((e, v) :: r.1, r.2)) = _
      cases hl : lookupKV e m with
      | none => simp [drainF, hl]
      | some v =>
        have hlt := length_eraseKV_lt hl
        have ha : (eraseKV e m).length ≤ n := by omega
        have hb : (eraseKV e m).length ≤ n2 := by omega
        simp only [drainF, hl]
        rw [ih (eraseKV e m) (e + 1) n2 ha hb]

theorem drain_eq_none {β : Type} {m : List (Nat × β)} {e : Nat}
    (h : lookupKV e m = none) : drain m e = ([], m, e) := by
  unfold drain
  cases hm : m.length with
  | zero => simp [drainF]
  | succ n => simp [drainF, h]

theorem drain_eq_some {β : Type} {m : List (Nat × β)} {e : Nat} {v : β}
    (h : lookupKV e m = some v) :
    drain m e =
      ((e, v) :: (drain (eraseKV e m) (e + 1)).1, (drain (eraseKV e m) (e + 1)).2) := by
  have hlt := length_eraseKV_lt h
  unfold drain
  cases hm : m.length with
  | zero =>
    exfalso
    have : m = [] := List.length_eq_zero.mp hm
    subst this
    simp [lookupKV] at h
  | succ n =>
    have ha : (eraseKV e m).length ≤ n := by omega
    simp only [drainF, h]
    rw [drainF_congr n (eraseKV e m) (e + 1) (eraseKV e m).length ha (le_refl _)]

/-- Characterisation of the drain loop on a buffer whose contents are
exactly the keys of `L` at or beyond `e`, each holding payload `f s`:
the loop delivers the contiguous run `e, e+1, …` as far as it extends in
`L`, leaves the rest buffered, and stops at the first gap. -/
theorem drain_char {β : Type} (f : Nat → β) :
    ∀ (N : Nat) (m : List (Nat × β)) (e : Nat) (L : List Nat), m.length ≤ N →
    (∀ s, lookupKV s m = if s ∈ L ∧ e ≤ s then some (f s) else none) →
    ∃ d,
      (drain m e).1 = (List.range' e d).map (fun s => (s, f s)) ∧
      (drain m e).2.2 = e + d ∧
      (∀ s, lookupKV s (drain m e).2.1 =
        if s ∈ L ∧ e + d ≤ s then some (f s) else none) ∧
      (e + d) ∉ L ∧
      (∀ s, e ≤ s → s < e + d → s ∈ L) := by
  intro N
  induction N with
  | zero =>
    intro m e L h1 hm
    have hme : m = [] := List.length_eq_zero.mp (Nat.le_zero.mp h1)
    subst hme
    refine ⟨0, ?_, ?_, ?_, ?_, ?_⟩
    · simp [drain_eq_none (lookupKV_nil e)]
    · simp [drain_eq_none (lookupKV_nil e)]
    · intro s
      simp only [drain_eq_none (lookupKV_nil e), Nat.add_zero]
      exact hm s
    · intro hmem
      have := hm e
      rw [if_pos ⟨hmem, le_refl e⟩] at this
      simp at this
    · intro s h1 h2
      omega
  | succ N ih =>
    intro m e L h1 hm
    cases hl : lookupKV e m with
    | none =>
      refine ⟨0, ?_, ?_, ?_, ?_, ?_⟩
      · simp [drain_eq_none hl]
      · simp [drain_eq_none hl]
      · intro s
        simp only [drain_eq_none hl, Nat.add_zero]
        exact hm s
      · intro hmem
        have := hm e
        rw [if_pos ⟨hmem, le_refl e⟩] at this
        rw [this] at hl
        simp at hl
      · intro s hs1 hs2
        omega
    | some v =>
      have hmemE : e ∈ L := by
        by_contra hc
        have := hm e
        rw [if_neg (fun hx => hc hx.1)] at this
        rw [this] at hl
        simp at hl
      have hv : v = f e := by
        have := hm e
        rw [if_pos ⟨hmemE, le_refl e⟩] at this
        rw [this] at hl
        exact (Option.some.injEq _ _ ▸ hl).symm
      have hlen : (eraseKV e m).length ≤ N := by
        have := length_eraseKV_lt hl
        omega
      have hm2 : ∀ s, lookupKV s (eraseKV e m) =
          if s ∈ L ∧ e + 1 ≤ s then some (f s) else none := by
        intro s
        rw [lookupKV_eraseKV]
        by_cases hse : s = e
        · subst hse
          rw [if_pos rfl, if_neg (by omega)]
        · rw [if_neg hse, hm s]
          by_cases hc : s ∈ L ∧ e ≤ s
          · rw [if_pos hc, if_pos ⟨hc.1, by omega⟩]
          · rw [if_neg hc, if_neg (fun hx => hc ⟨hx.1, by omega⟩)]
      obtain ⟨d, hd1, hd2, hd3, hd4, hd5⟩ := ih (eraseKV e m) (e + 1) L hlen hm2
      refine ⟨d + 1, ?_, ?_, ?_, ?_, ?_⟩
      · rw [drain_eq_some hl, List.range'_succ, hv]
        simp only [List.map_cons]
        rw [hd1]
      · rw [drain_eq_some hl]
        simpa [Nat.add_comm, Nat.add_assoc, Nat.add_left_comm] using hd2
      · intro s
        rw [drain_eq_some hl]
        have := hd3 s
        simpa [Nat.add_comm, Nat.add_assoc, Nat.add_left_comm] using this
      · simpa [Nat.add_comm, Nat.add_assoc, Nat.add_left_comm] using hd4
      · intro s hs1 hs2
        by_cases hse : s = e
        · subst hse; exact hmemE
        · exact hd5 s (by omega) (by omega)

/-! ### The reliable reorder/delivery engine

The reliable branch of `GameServerProtocol._handle_packet`
(GameServerProtocol.py lines 81-83): `reliable_buffer[seq_no] = (data,
timestamp)` followed by `_deliver_reliable()`.  The engine state is the
pair (`reliable_buffer`, `expected_seq`), initially `({}, 0)`
(GameServerProtocol.py lines 19-20). -/

/-- Engine state: the reorder buffer and the next expected reliable
sequence number. -/
structure RelEngine (β : Type) where
  buffer : List (Nat × β)
  expected : Nat
deriving DecidableEq, Repr

/-- Process one received reliable frame: store it in the buffer, then
drain the contiguous front.  Returns the frames delivered to the
application (in delivery order) and the new state. -/
def relStep {β : Type} (st : RelEngine β) (s : Nat) (v : β) :
    List (Nat × β) × RelEngine β :=
  let m1 := insertKV s v st.buffer
  let r := drain m1 st.expected
  (r.1, ⟨r.2.1, r.2.2⟩)

/-- Process a list of received reliable frames in arrival order, frame
with sequence number `s` carrying payload `f s`.  Returns the
concatenated application-visible delivery sequence and the final state. -/
def relRun {β : Type} (f : Nat → β) (st : RelEngine β) :
    List Nat → List (Nat × β) × RelEngine β
  | [] => ([], st)
  | a :: rest =>
    let r := relStep st a (f a)
    let r2 := relRun f r.2 rest
    (r.1 ++ r2.1, r2.2)

/-- Invariant of the reliable engine after the frames in `P` (distinct
sequence numbers, payload `f s` for seq `s`) have been processed from the
initial state: the buffer holds exactly the processed frames at or beyond
`expected`, `expected` itself is not yet processed, and everything below
`expected` has been processed. -/
def EngInv {β : Type} (f : Nat → β) (P : List Nat) (st : RelEngine β) : Prop :=
  (∀ s, lookupKV s st.buffer = if s ∈ P ∧ st.expected ≤ s then some (f s) else none) ∧
  st.expected ∉ P ∧
  (∀ s, s < st.expected → s ∈ P)

theorem engInv_congr {β : Type} {f : Nat → β} {P1 P2 : List Nat} {st : RelEngine β}
    (hmem : ∀ s, s ∈ P1 ↔ s ∈ P2) (h : EngInv f P1 st) : EngInv f P2 st := by
  obtain ⟨h1, h2, h3⟩ := h
  refine ⟨?_, ?_, ?_⟩
  · intro s
    rw [h1 s]
    by_cases hc : s ∈ P1 ∧ st.expected ≤ s
    · rw [if_pos hc, if_pos ⟨(hmem s).mp hc.1, hc.2⟩]
    · rw [if_neg hc, if_neg (fun hx => hc ⟨(hmem s).mpr hx.1, hx.2⟩)]
  · exact fun hc => h2 ((hmem _).mpr hc)
  · exact fun s hs => (hmem s).mp (h3 s hs)

theorem relStep_inv {β : Type} {f : Nat → β} {P : List Nat} {st : RelEngine β}
    {a : Nat} (hinv : EngInv f P st) (ha : a ∉ P) :
    EngInv f (a :: P) (relStep st a (f a)).2 ∧
    st.expected ≤ (relStep st a (f a)).2.expected ∧
    (relStep st a (f a)).1 =
      (List.range' st.expected ((relStep st a (f a)).2.expected - st.expected)).map
        (fun s => (s, f s)) := by
  obtain ⟨h1, h2, h3⟩ := hinv
  have hae : st.expected ≤ a := by
    by_contra hc
    exact ha (h3 a (by omega))
  have hm1 : ∀ s, lookupKV s (insertKV a (f a) st.buffer) =
      if s ∈ a :: P ∧ st.expected ≤ s then some (f s) else none := by
    intro s
    rw [lookupKV_insertKV]
    by_cases hs : s = a
    · subst hs
      rw [if_pos rfl, if_pos ⟨List.mem_cons_self _ _, hae⟩]
    · rw [if_neg hs, h1 s]
      by_cases hc : s ∈ P ∧ st.expected ≤ s
      · rw [if_pos hc, if_pos ⟨List.mem_cons_of_mem _ hc.1, hc.2⟩]
      · rw [if_neg hc, if_neg]
        intro hx
        rcases List.mem_cons.mp hx.1 with h | h
        · exact hs h
        · exact hc ⟨h, hx.2⟩
  obtain ⟨d, hd1, hd2, hd3, hd4, hd5⟩ :=
    drain_char f (insertKV a (f a) st.buffer).length
      (insertKV a (f a) st.buffer) st.expected (a :: P) (le_refl _) hm1
  have hexp : (relStep st a (f a)).2.expected = st.expected + d := hd2
  refine ⟨⟨?_, ?_, ?_⟩, ?_, ?_⟩
  · intro s
    rw [hexp]
    exact hd3 s
  · rw [hexp]
    exact hd4
  · intro s hs
    rw [hexp] at hs
    by_cases hse : s < st.expected
    · exact List.mem_cons_of_mem _ (h3 s hse)
    · exact hd5 s (by omega) hs
  · rw [hexp]; omega
  · rw [hexp]
    have : st.expected + d - st.expected = d := by omega
    rw [this]
    exact hd1

theorem range'_glue {e e1 e2 : Nat} (h1 : e ≤ e1) (h2 : e1 ≤ e2) :
    List.range' e (e1 - e) ++ List.range' e1 (e2 - e1) = List.range' e (e2 - e) := by
  have h := List.range'_append e (e1 - e) (e2 - e1) 1
  rw [show e + 1 * (e1 - e) = e1 by omega] at h
  rw [h]
  congr 1
  omega

theorem relRun_inv {β : Type} (f : Nat → β) :
    ∀ (arr : List Nat) (P : List Nat) (st : RelEngine β),
    arr.Nodup → (∀ x ∈ arr, x ∉ P) → EngInv f P st →
    EngInv f (arr ++ P) (relRun f st arr).2 ∧
    st.expected ≤ (relRun f st arr).2.expected ∧
    (relRun f st arr).1 =
      (List.range' st.expected ((relRun f st arr).2.expected - st.expected)).map
        (fun s => (s, f s)) := by
  intro arr
  induction arr with
  | nil =>
    intro P st _ _ hinv
    refine ⟨hinv, le_refl _, ?_⟩
    simp [relRun]
  | cons a rest ih =>
    intro P st hnd hdis hinv
    have ha : a ∉ P := hdis a (List.mem_cons_self _ _)
    obtain ⟨hstep, hle1, hout1⟩ := relStep_inv hinv ha
    have hnd2 : rest.Nodup := (List.nodup_cons.mp hnd).2
    have hdis2 : ∀ x ∈ rest, x ∉ a :: P := by
      intro x hx hmem
      rcases List.mem_cons.mp hmem with h | h
      · exact (List.nodup_cons.mp hnd).1 (h ▸ hx)
      · exact hdis x (List.mem_cons_of_mem _ hx) h
    obtain ⟨hrun, hle2, hout2⟩ := ih (a :: P) (relStep st a (f a)).2 hnd2 hdis2 hstep
    refine ⟨?_, ?_, ?_⟩
    · refine engInv_congr ?_ hrun
      intro s
      simp only [List.mem_append, List.mem_cons]
      tauto
    · show st.expected ≤ (relRun f st (a :: rest)).2.expected
      have heq : (relRun f st (a :: rest)).2 = (relRun f (relStep st a (f a)).2 rest).2 := rfl
      rw [heq]
      omega
    · show (relStep st a (f a)).1 ++ (relRun f (relStep st a (f a)).2 rest).1 = _
      have heq : (relRun f st (a :: rest)).2 = (relRun f (relStep st a (f a)).2 rest).2 := rfl
      rw [hout1, hout2, heq, ← List.map_append, range'_glue hle1 hle2]

/-! ### Protocol-level metrics and delivery

`GameServerProtocol` keeps one metrics dict per channel
(GameServerProtocol.py lines 25-44); `_update_metrics` (lines 141-155)
runs on every well-formed arrival, `_deliver_packet` (lines 93-117) on
every delivery.  Note that `_update_metrics` reads `last_rtt` but never
writes it; `last_rtt` is written only in `_deliver_packet` (line 98). -/

/-- Per-channel protocol metrics (GameServerProtocol.py lines 25-44).
Times are opaque: `start_time` in seconds, RTTs in milliseconds. -/
structure PMetrics where
  packets_received : Nat
  packets_sent : Nat
  last_rtt : Option Int
  rtt_samples : List Int
  jitter_samples : List Int
  bytes_received : Nat
  start_time : Option Int
deriving DecidableEq, Repr

/-- The initial metrics of a fresh connection. -/
def initPMetrics : PMetrics := ⟨0, 0, none, [], [], 0, none⟩

/-- `GameServerProtocol._update_metrics` (lines 141-155), with the two
`time.time()` reads of one handler invocation abstracted as the arrival
instants `nowS` (seconds) and `nowMs` (milliseconds).  Faithful detail:
`last_rtt` is read for the jitter test but not written here. -/
def updateMetrics (m : PMetrics) (nowS nowMs : Int) (packetSize : Nat)
    (timestamp : Int) : PMetrics :=
  { m with
    start_time := match m.start_time with
      | none => some nowS
      | some t => some t
    packets_received := m.packets_received + 1
    bytes_received := m.bytes_received + packetSize
    rtt_samples := m.rtt_samples ++ [nowMs - timestamp]
    jitter_samples := match m.last_rtt with
      | some l => m.jitter_samples ++ [|nowMs - timestamp - l|]
      | none => m.jitter_samples }

/-- Values stored in the acknowledgment payload dict
(GameServerProtocol.py lines 102-105). -/
inductive PVal where
  | vStr (s : String)
  | vNat (n : Nat)
deriving DecidableEq, Repr

/-- The acknowledgment payload built by `_deliver_packet`
(GameServerProtocol.py lines 102-105). -/
def responsePayload (seq_no : Nat) : List (String × PVal) :=
  [("ack", PVal.vStr ("received")), ("seq_echo", PVal.vNat seq_no)]

/-- Values stored in the record handed to the application callback
(GameServerProtocol.py lines 109-113). -/
inductive FVal (α : Type) where
  | num (n : Nat)
  | time (t : Int)
  | pay (p : α)
deriving DecidableEq, Repr

/-- The `formatted_data` dict handed to `on_message`
(GameServerProtocol.py lines 109-113).  It has exactly the keys
`seq_no`, `timestamp` and `payload`. -/
def formattedData {α : Type} (seq_no : Nat) (timestamp : Int) (payload : α) :
    List (String × FVal α) :=
  [("seq_no", FVal.num seq_no), ("timestamp", FVal.time timestamp),
   ("payload", FVal.pay payload)]

/-- The observable output of a delivery pipeline: acknowledgment frames
handed to `send_packet` (channel flag, payload dict) and application
callback invocations (record dict, `reliable` argument). -/
structure DeliverOut (α : Type) where
  acks : List (Bool × List (String × PVal))
  calls : List (List (String × FVal α) × Bool)
deriving DecidableEq, Repr

/-- Concatenation of delivery outputs. -/
def DeliverOut.append {α : Type} (a b : DeliverOut α) : DeliverOut α :=
  ⟨a.acks ++ b.acks, a.calls ++ b.calls⟩

/-- Connection state of `GameServerProtocol` (GameServerProtocol.py lines
17-44): the reliable reorder buffer (seq → (payload, timestamp)), the next
expected reliable seq, and the per-channel metrics dict. -/
structure PState (α : Type) where
  reliable_buffer : List (Nat × (α × Int))
  expected_seq : Nat
  relMetrics : PMetrics
  unrelMetrics : PMetrics
deriving DecidableEq, Repr

/-- A fresh connection's state (GameServerProtocol.py lines 17-44). -/
def initPState (α : Type) : PState α := ⟨[], 0, initPMetrics, initPMetrics⟩

/-- The metrics dict lookup `self.metrics[channel]` with the channel tag
from the wire (1 = reliable, 0 = unreliable; the source's dict has exactly
these two keys). -/
def getMetrics {α : Type} (st : PState α) (channel : Nat) : PMetrics :=
  if channel = 1 then st.relMetrics else st.unrelMetrics

/-- Write back `self.metrics[channel]`. -/
def setMetrics {α : Type} (st : PState α) (channel : Nat) (m : PMetrics) :
    PState α :=
  if channel = 1 then { st with relMetrics := m } else { st with unrelMetrics := m }

/-- `GameServerProtocol._deliver_packet` (lines 93-117): record the
delivery RTT in `last_rtt` of the delivering channel, emit one
acknowledgment frame on that same channel, and invoke the application
callback once with the formatted record and the channel flag.  The
acknowledgment `send_packet` is spawned as a fire-and-forget task in the
source; it is modelled as an emitted output. -/
def deliverPacket {α : Type} (nowMs : Int) (st : PState α) (data : α)
    (reliable : Bool) (seq_no : Nat) (timestamp : Int) :
    PState α × DeliverOut α :=
  let rtt := nowMs - timestamp
  let st2 := setMetrics st (if reliable then 1 else 0)
    { getMetrics st (if reliable then 1 else 0) with last_rtt := some rtt }
  (st2, ⟨[(reliable, responsePayload seq_no)],
         [(formattedData seq_no timestamp data, reliable)]⟩)

/-- Deliver each drained reliable frame in order
(`_deliver_reliable`'s loop body, GameServerProtocol.py lines 87-91). -/
def deliverAll {α : Type} (nowMs : Int) (st : PState α) :
    List (Nat × (α × Int)) → PState α × DeliverOut α
  | [] => (st, ⟨[], []⟩)
  | (s, (d, ts)) :: rest =>
    let r := deliverPacket nowMs st d true s ts
    let r2 := deliverAll nowMs r.1 rest
    (r2.1, r.2.append r2.2)

/-- Why `_handle_packet` dropped a frame: header shorter than 11 bytes
(GameServerProtocol.py lines 62-65) or a payload that fails to parse as
the application encoding (lines 72-76). -/
inductive DropReason where
  | formatError
  | decodeError
deriving DecidableEq, Repr

/-- `GameServerProtocol._handle_packet` (lines 61-85): reject short
frames, decode the header fields, parse the payload (the JSON decoding is
the parameter `jsonParse`), update the arrival metrics of the channel
named in the frame, then run the reliable reorder engine or deliver the
unreliable frame immediately.  `nowS`/`nowMs` are the wall-clock reads of
this invocation. -/
def handlePacket {α : Type} (jsonParse : List Nat → Option α) (nowS nowMs : Int)
    (st : PState α) (packet : List Nat) (reliable : Bool) :
    PState α × DeliverOut α × Option DropReason :=
  if packet.length < 11 then (st, ⟨[], []⟩, some DropReason.formatError)
  else
    let channel := packet.headD 0
    let seq_no := fromBytesBE ((packet.drop 1).take 2)
    let timestamp : Int := (fromBytesBE ((packet.drop 3).take 8) : Nat)
    let payload_bytes := packet.drop 11
    match jsonParse payload_bytes with
    | none => (st, ⟨[], []⟩, some DropReason.decodeError)
    | some data =>
      let st1 := setMetrics st channel
        (updateMetrics (getMetrics st channel) nowS nowMs packet.length timestamp)
      if reliable then
        let m1 := insertKV seq_no (data, timestamp) st1.reliable_buffer
        let r := drain m1 st1.expected_seq
        let st2 := { st1 with reliable_buffer := r.2.1, expected_seq := r.2.2 }
        let r2 := deliverAll nowMs st2 r.1
        (r2.1, r2.2, none)
      else
        let r := deliverPacket nowMs st1 data false seq_no timestamp
        (r.1, r.2, none)

/-- One arrival event handed to the server protocol: the raw bytes, the
transport channel it arrived on, and the wall-clock reads of its handler
invocation. -/
structure Arrival where
  packet : List Nat
  reliable : Bool
  nowS : Int
  nowMs : Int

/-- Process a list of arrival events in order, concatenating all emitted
outputs. -/
def runPackets {α : Type} (jsonParse : List Nat → Option α) (st : PState α) :
    List Arrival → PState α × DeliverOut α
  | [] => (st, ⟨[], []⟩)
  | a :: rest =>
    let r := handlePacket jsonParse a.nowS a.nowMs st a.packet a.reliable
    let r2 := runPackets jsonParse r.1 rest
    (r2.1, r.2.1.append r2.2)

/-- Modelled from the spec: the application payload encoding is JSON
(`json.loads` on the payload slice; the `json` module itself is outside
the repository).  Minimal faithful fragment used for concrete inputs in
this file: a single ASCII digit is a valid JSON document and parses to
itself; the empty byte string and every other input used here are not
valid JSON and fail to parse. -/
def jsonParseModel (bs : List Nat) : Option (List Nat) :=
  match bs with
  | [d] => if 48 ≤ d ∧ d ≤ 57 then some [d] else none
  | _ => none

/-! ### Sequencers

`GameClientProtocol.send_packet` (GameNetAPI.py lines 63-86) and
`GameServerProtocol.send_packet` (GameServerProtocol.py lines 120-138). -/

/-- `GameClientProtocol.send_packet`: read `self.seq[channel]`, build the
frame (Python `to_bytes` raises `OverflowError` when the value does not
fit, in which case nothing is sent and the counter is not touched), send,
then `self.seq[channel] += 1` with no wraparound.  Returns the wire frame
and the new counter. -/
def clientSend (seqCounter : Nat) (ts : Nat) (payload : List Nat)
    (reliable : Bool) : Option (List Nat × Nat) :=
  if seqCounter < 65536 ∧ ts < 2 ^ 64 then
    some (encode (if reliable then 1 else 0) seqCounter ts payload, seqCounter + 1)
  else none

/-- `GameServerProtocol.send_packet`: reliable sends use and then
post-increment `next_ack_seq` modulo 65536; unreliable sends always carry
sequence number 0 and leave the counter untouched.  Returns the wire frame
and the new counter. -/
def serverSend (next_ack_seq : Nat) (ts : Nat) (payload : List Nat)
    (reliable : Bool) : Option (List Nat × Nat) :=
  let seq_no := if reliable then next_ack_seq else 0
  if seq_no < 65536 ∧ ts < 2 ^ 64 then
    some (encode (if reliable then 1 else 0) seq_no ts payload,
      if reliable then (next_ack_seq + 1) % 65536 else next_ack_seq)
  else none

/-! ### Application-level receiver

`server.py`: `ChannelMetrics` (lines 48-106) and
`ReceiverApplication.on_message` (lines 212-275) + `deliver_packet`
(lines 395-448).  Wall-clock seconds and RTT milliseconds are `ℚ`
(Python floats). -/

/-- Per-channel application metrics (`ChannelMetrics`, server.py lines
48-59). -/
structure AppMetrics where
  packets_received : Nat
  packets_delivered : Nat
  bytes_received : Nat
  rtts : List ℚ
  jitter_samples : List ℚ
  last_rtt : Option ℚ
  start_time : Option ℚ
  last_seq : Int
deriving DecidableEq, Repr

/-- A fresh channel's application metrics (`last_seq` starts at -1,
server.py line 59). -/
def initAppMetrics : AppMetrics := ⟨0, 0, 0, [], [], none, none, -1⟩

/-- `ChannelMetrics.add_rtt` (server.py lines 61-69): append the RTT
sample, append a jitter sample when a previous RTT exists, update
`last_rtt`. -/
def add_rtt (m : AppMetrics) (rtt : ℚ) : AppMetrics :=
  { m with
    rtts := m.rtts ++ [rtt]
    jitter_samples := match m.last_rtt with
      | some l => m.jitter_samples ++ [|rtt - l|]
      | none => m.jitter_samples
    last_rtt := some rtt }

/-- One frame as seen by `ReceiverApplication.on_message`: its sequence
number, the receiver arrival instant, the sender timestamp (seconds), and
the payload byte length counted by the application. -/
structure AppArrival where
  seq_no : Nat
  arrival : ℚ
  sendTs : ℚ
  payloadBytes : Nat

/-- `ReceiverApplication.on_message` and the `deliver_packet` it always
invokes (server.py lines 212-275 and 395-448), for one channel: set the
channel start time, record the RTT sample (`add_rtt`), bump the receive
counters, compute `out_of_order = seq_no <= last_seq and last_seq >= 0`,
advance `last_seq` only when in order, then deliver (bumping
`packets_delivered`).  Returns the new metrics and the frame's
out-of-order flag. -/
def appStep (m : AppMetrics) (a : AppArrival) : AppMetrics × Bool :=
  let m1 := { m with start_time := match m.start_time with
    | none => some a.arrival
    | some t => some t }
  let rtt := (a.arrival - a.sendTs) * 1000
  let m2 := add_rtt m1 rtt
  let m3 := { m2 with
    packets_received := m2.packets_received + 1
    bytes_received := m2.bytes_received + a.payloadBytes }
  let ooo : Bool := decide ((a.seq_no : Int) ≤ m3.last_seq ∧ 0 ≤ m3.last_seq)
  let m4 := if ooo then m3 else { m3 with last_seq := (a.seq_no : Int) }
  let m5 := { m4 with packets_delivered := m4.packets_delivered + 1 }
  (m5, ooo)

/-- Process a list of frames through `on_message` in arrival order,
collecting each frame's out-of-order flag in order. -/
def appRun (m : AppMetrics) : List AppArrival → AppMetrics × List Bool
  | [] => (m, [])
  | a :: rest =>
    let r := appStep m a
    let r2 := appRun r.1 rest
    (r2.1, r.2 :: r2.2)

/-- Running-maximum step: fold a sequence number into a running maximum
(`last_seq` update discipline). -/
def maxStep (acc : Int) (s : Nat) : Int := max acc (s : Int)

/-- The highest sequence number in `l`, or -1 when `l` is empty: the
value of `last_seq` after the frames in `l` (the spec's `maxSeqSeen`). -/
def maxSeqSeen (l : List Nat) : Int :=
  l.foldl maxStep (-1)

/-- Folding `add_rtt` over a list of RTT samples (the per-channel sample
stream seen by the application metrics). -/
def rttRun (m : AppMetrics) (l : List ℚ) : AppMetrics :=
  l.foldl add_rtt m

/-- The packet-delivery ratio printed by
`ReceiverApplication.print_statistics` (server.py lines 577-584):
`packets_received / packets_delivered * 100` when any packet was
delivered, else 0. -/
def app_pdr (received delivered : Nat) : ℚ :=
  if 0 < delivered then (received : ℚ) / (delivered : ℚ) * 100 else 0

/-- The packet-delivery ratio printed by
`GameServerProtocol.print_statistics` (GameServerProtocol.py lines
165-168): `packets_received / packets_sent * 100` when anything was sent,
else 100. -/
def proto_pdr (received sent : Nat) : ℚ :=
  if 0 < sent then (received : ℚ) / (sent : ℚ) * 100 else 100

/-- `ChannelMetrics.throughput_bps` (server.py lines 95-101):
`bytes_received * 8 / (now - start_time)`, and 0 when the channel never
started or no time has elapsed. -/
def throughput_bps (bytes_received : Nat) (start_time : Option ℚ) (now : ℚ) : ℚ :=
  match start_time with
  | none => 0
  | some t => if 0 < now - t then (bytes_received : ℚ) * 8 / (now - t) else 0

/-! ### Client-side receive path

`GameClientProtocol._handle_stream_data` and `_handle_datagram`
(GameNetAPI.py lines 33-61): drop frames shorter than the 11-byte header,
parse `data[11:]` as JSON, and hand the parsed payload alone to the
callback.  The header bytes are never read. -/

/-- `GameClientProtocol._handle_stream_data` (GameNetAPI.py lines 33-46):
the payload delivered to the client callback, or `none` when the frame is
dropped (short frame, or payload parse failure caught by the handler). -/
def clientHandleStream {α : Type} (jsonParse : List Nat → Option α)
    (data : List Nat) : Option α :=
  if data.length < 11 then none else jsonParse (data.drop 11)

/-- `GameClientProtocol._handle_datagram` (GameNetAPI.py lines 48-61):
identical handling for the unreliable channel. -/
def clientHandleDatagram {α : Type} (jsonParse : List Nat → Option α)
    (data : List Nat) : Option α :=
  if data.length < 11 then none else jsonParse (data.drop 11)

/-- The client's delivery stream: frames (with their channel flag) are
handled in arrival order and the surviving payloads delivered
immediately. -/
def clientRun {α : Type} (jsonParse : List Nat → Option α)
    (frames : List (List Nat × Bool)) : List (α × Bool) :=
  frames.filterMap (fun fb =>
    (if fb.2 then clientHandleStream jsonParse fb.1
     else clientHandleDatagram jsonParse fb.1).map (fun p => (p, fb.2)))

/-! ### Helper lemmas about the protocol model -/

@[simp]
theorem setMetrics_expected {α : Type} (st : PState α) (c : Nat) (m : PMetrics) :
    (setMetrics st c m).expected_seq = st.expected_seq := by
  unfold setMetrics
  by_cases h : c = 1 <;> simp [h]

@[simp]
theorem setMetrics_buffer {α : Type} (st : PState α) (c : Nat) (m : PMetrics) :
    (setMetrics st c m).reliable_buffer = st.reliable_buffer := by
  unfold setMetrics
  by_cases h : c = 1 <;> simp [h]

@[simp]
theorem deliverPacket_expected {α : Type} (nowMs : Int) (st : PState α) (d : α)
    (rel : Bool) (s : Nat) (ts : Int) :
    (deliverPacket nowMs st d rel s ts).1.expected_seq = st.expected_seq := by
  unfold deliverPacket
  simp

@[simp]
theorem deliverAll_expected {α : Type} (nowMs : Int) :
    ∀ (l : List (Nat × (α × Int))) (st : PState α),
    (deliverAll nowMs st l).1.expected_seq = st.expected_seq := by
  intro l
  induction l with
  | nil => intro st; rfl
  | cons hd tl ih =>
    intro st
    obtain ⟨s, d, ts⟩ := hd
    show (deliverAll nowMs (deliverPacket nowMs st d true s ts).1 tl).1.expected_seq = _
    rw [ih, deliverPacket_expected]

theorem deliverAll_calls {α : Type} (nowMs : Int) :
    ∀ (l : List (Nat × (α × Int))) (st : PState α),
    (deliverAll nowMs st l).2.calls
      = l.map (fun x => (formattedData x.1 x.2.2 x.2.1, true)) := by
  intro l
  induction l with
  | nil => intro st; rfl
  | cons hd tl ih =>
    intro st
    obtain ⟨s, d, ts⟩ := hd
    show ((deliverPacket nowMs st d true s ts).2.append
      (deliverAll nowMs (deliverPacket nowMs st d true s ts).1 tl).2).calls = _
    simp [DeliverOut.append, deliverPacket, ih]

theorem drainF_expected_ge {β : Type} :
    ∀ (fuel : Nat) (m : List (Nat × β)) (e : Nat), e ≤ (drainF fuel m e).2.2 := by
  intro fuel
  induction fuel with
  | zero => intro m e; exact le_refl e
  | succ fuel ih =>
    intro m e
    show e ≤ (match lookupKV e m with
      | none => ([], m, e)
      | some v => let r := drainF fuel (eraseKV e m) (e + 1); ((e, v) :: r.1, r.2)).2.2
    cases hl : lookupKV e m with
    | none => exact le_refl e
    | some v =>
      have := ih (eraseKV e m) (e + 1)
      simpa using le_trans (Nat.le_succ e) this

theorem drain_expected_ge {β : Type} (m : List (Nat × β)) (e : Nat) :
    e ≤ (drain m e).2.2 :=
  drainF_expected_ge m.length m e

theorem drainF_out_ge {β : Type} :
    ∀ (fuel : Nat) (m : List (Nat × β)) (e : Nat) (x : Nat × β),
    x ∈ (drainF fuel m e).1 → e ≤ x.1 := by
  intro fuel
  induction fuel with
  | zero => intro m e x hx; simp [drainF] at hx
  | succ fuel ih =>
    intro m e x hx
    revert hx
    show x ∈ (match lookupKV e m with
      | none => ([], m, e)
      | some v => let r := drainF fuel (eraseKV e m) (e + 1); ((e, v) :: r.1, r.2)).1 → _
    cases hl : lookupKV e m with
    | none => intro hx; simp at hx
    | some v =>
      intro hx
      simp only at hx
      rcases List.mem_cons.mp hx with h | h
      · subst h; exact le_refl e
      · exact le_trans (Nat.le_succ e) (ih (eraseKV e m) (e + 1) x h)

theorem drain_out_ge {β : Type} (m : List (Nat × β)) (e : Nat) (x : Nat × β)
    (hx : x ∈ (drain m e).1) : e ≤ x.1 :=
  drainF_out_ge m.length m e x hx

theorem handlePacket_expected_mono {α : Type} (jsonParse : List Nat → Option α)
    (nowS nowMs : Int) (st : PState α) (packet : List Nat) (reliable : Bool) :
    st.expected_seq ≤ (handlePacket jsonParse nowS nowMs st packet reliable).1.expected_seq := by
  unfold handlePacket
  by_cases h : packet.length < 11
  · rw [if_pos h]
  · rw [if_neg h]
    rcases hp : jsonParse (packet.drop 11) with _ | data
    · simp only [hp]
      exact le_refl _
    · simp only [hp]
      by_cases hr : reliable = true
      · subst hr
        simp only [eq_self_iff_true, if_true, deliverAll_expected, setMetrics_expected]
        exact drain_expected_ge _ _
      · simp only [if_neg hr, deliverPacket_expected, setMetrics_expected]
        exact le_refl _

/-- The sequence number carried in a callback record. -/
def callRecordSeq {α : Type} (c : List (String × FVal α) × Bool) : Option (FVal α) :=
  lookupKV ("seq_no") c.1

theorem handlePacket_reliable_calls_ge {α : Type} (jsonParse : List Nat → Option α)
    (nowS nowMs : Int) (st : PState α) (packet : List Nat) (reliable : Bool)
    (c : List (String × FVal α) × Bool)
    (hc : c ∈ (handlePacket jsonParse nowS nowMs st packet reliable).2.1.calls)
    (hrel : c.2 = true) (n : Nat) (hn : callRecordSeq c = some (FVal.num n)) :
    st.expected_seq ≤ n := by
  revert hc
  unfold handlePacket
  by_cases h : packet.length < 11
  · rw [if_pos h]; intro hc; simp at hc
  · rw [if_neg h]
    rcases hp : jsonParse (packet.drop 11) with _ | data
    · simp only [hp]
      intro hc
      simp at hc
    · simp only [hp]
      by_cases hr : reliable = true
      · subst hr
        simp only [eq_self_iff_true, if_true]
        intro hc
        rw [deliverAll_calls] at hc
        obtain ⟨x, hx, hxc⟩ := List.mem_map.mp hc
        have hge := drain_out_ge _ _ x hx
        have hseq : callRecordSeq c = some (FVal.num x.1) := by
          rw [← hxc]
          rfl
        rw [hn] at hseq
        have hnx : n = x.1 := by
          injection hseq with h2
          injection h2
        simp only [setMetrics_expected] at hge
        omega
      · simp only [if_neg hr]
        intro hc
        simp only [deliverPacket, List.mem_singleton] at hc
        rw [hc] at hrel
        simp at hrel

theorem runPackets_reliable_calls_ge {α : Type} (jsonParse : List Nat → Option α) :
    ∀ (evs : List Arrival) (st : PState α) (c : List (String × FVal α) × Bool),
    c ∈ (runPackets jsonParse st evs).2.calls → c.2 = true →
    ∀ n, callRecordSeq c = some (FVal.num n) → st.expected_seq ≤ n := by
  intro evs
  induction evs with
  | nil => intro st c hc; simp [runPackets] at hc
  | cons a rest ih =>
    intro st c hc hrel n hn
    have hsplit : (runPackets jsonParse st (a :: rest)).2.calls
        = (handlePacket jsonParse a.nowS a.nowMs st a.packet a.reliable).2.1.calls
          ++ (runPackets jsonParse
              (handlePacket jsonParse a.nowS a.nowMs st a.packet a.reliable).1 rest).2.calls := rfl
    rw [hsplit] at hc
    rcases List.mem_append.mp hc with h | h
    · exact handlePacket_reliable_calls_ge jsonParse a.nowS a.nowMs st a.packet
        a.reliable c h hrel n hn
    · have hmono := handlePacket_expected_mono jsonParse a.nowS a.nowMs st a.packet a.reliable
      have := ih _ c h hrel n hn
      omega

/-! ### Helper lemmas about the application receiver -/

theorem appStep_last_seq (m : AppMetrics) (a : AppArrival) :
    (appStep m a).1.last_seq = maxStep m.last_seq a.seq_no := by
  unfold maxStep
  unfold appStep add_rtt
  by_cases h : (a.seq_no : Int) ≤ m.last_seq ∧ 0 ≤ m.last_seq
  · simp only [decide_eq_true_eq, h, if_pos, decide_eq_true (p := _)]
    simp [h, max_eq_left h.1]
  · have hgt : m.last_seq < (a.seq_no : Int) := by
      rcases not_and_or.mp h with h2 | h2
      · omega
      · have : (0 : Int) ≤ (a.seq_no : Int) := Int.ofNat_nonneg a.seq_no
        omega
    simp [h, max_eq_right (le_of_lt hgt)]

theorem appStep_flag (m : AppMetrics) (a : AppArrival) :
    (appStep m a).2 = decide ((a.seq_no : Int) ≤ m.last_seq) := by
  unfold appStep add_rtt
  simp only
  apply decide_eq_decide.mpr
  constructor
  · intro h; exact h.1
  · intro h
    have : (0 : Int) ≤ (a.seq_no : Int) := Int.ofNat_nonneg a.seq_no
    exact ⟨h, by omega⟩

theorem appStep_counters (m : AppMetrics) (a : AppArrival) :
    (appStep m a).1.packets_received = m.packets_received + 1 ∧
    (appStep m a).1.packets_delivered = m.packets_delivered + 1 := by
  unfold appStep add_rtt
  by_cases h : (a.seq_no : Int) ≤ m.last_seq ∧ 0 ≤ m.last_seq <;> simp [h]

theorem appRun_char :
    ∀ (arr : List AppArrival) (m : AppMetrics),
    (appRun m arr).2.length = arr.length ∧
    (∀ i, (appRun m arr).2[i]? = (arr[i]?).map (fun a =>
      decide ((a.seq_no : Int) ≤
        ((arr.take i).map AppArrival.seq_no).foldl maxStep m.last_seq))) ∧
    (appRun m arr).1.last_seq
      = (arr.map AppArrival.seq_no).foldl maxStep m.last_seq := by
  intro arr
  induction arr with
  | nil =>
    intro m
    refine ⟨rfl, ?_, rfl⟩
    intro i
    simp [appRun]
  | cons a rest ih =>
    intro m
    obtain ⟨ih1, ih2, ih3⟩ := ih (appStep m a).1
    refine ⟨?_, ?_, ?_⟩
    · show ((appStep m a).2 :: (appRun (appStep m a).1 rest).2).length = rest.length + 1
      simp [ih1]
    · intro i
      have hz : (appRun m (a :: rest)).2
          = (appStep m a).2 :: (appRun (appStep m a).1 rest).2 := rfl
      cases i with
      | zero =>
        rw [hz, List.getElem?_cons_zero, List.getElem?_cons_zero]
        simp only [List.take_zero, List.map_nil, List.foldl_nil, Option.map_some']
        rw [appStep_flag]
      | succ i =>
        rw [hz, List.getElem?_cons_succ, List.getElem?_cons_succ,
          List.take_succ_cons, List.map_cons, List.foldl_cons, ← appStep_last_seq]
        exact ih2 i
    · show (appRun (appStep m a).1 rest).1.last_seq = _
      rw [ih3, appStep_last_seq]
      rfl

theorem appRun_counters :
    ∀ (arr : List AppArrival) (m : AppMetrics),
    (appRun m arr).1.packets_received = m.packets_received + arr.length ∧
    (appRun m arr).1.packets_delivered = m.packets_delivered + arr.length := by
  intro arr
  induction arr with
  | nil => intro m; exact ⟨rfl, rfl⟩
  | cons a rest ih =>
    intro m
    obtain ⟨ih1, ih2⟩ := ih (appStep m a).1
    obtain ⟨hs1, hs2⟩ := appStep_counters m a
    constructor
    · show (appRun (appStep m a).1 rest).1.packets_received = _
      rw [ih1, hs1, List.length_cons]
      omega
    · show (appRun (appStep m a).1 rest).1.packets_delivered = _
      rw [ih2, hs2, List.length_cons]
      omega

theorem rttRun_some :
    ∀ (l : List ℚ) (m : AppMetrics) (x : ℚ), m.last_rtt = some x →
    (rttRun m l).jitter_samples.length = m.jitter_samples.length + l.length ∧
    (rttRun m l).rtts.length = m.rtts.length + l.length ∧
    (rttRun m l).last_rtt = some (l.getLastD x) := by
  intro l
  induction l with
  | nil => intro m x hx; exact ⟨rfl, rfl, by simpa [rttRun] using hx⟩
  | cons r rest ih =>
    intro m x hx
    have hstep : rttRun m (r :: rest) = rttRun (add_rtt m r) rest := rfl
    have hfields : (add_rtt m r).jitter_samples.length = m.jitter_samples.length + 1 ∧
        (add_rtt m r).rtts.length = m.rtts.length + 1 ∧
        (add_rtt m r).last_rtt = some r := by
      unfold add_rtt
      rw [hx]
      simp
    obtain ⟨ih1, ih2, ih3⟩ := ih (add_rtt m r) r hfields.2.2
    rw [hstep]
    refine ⟨?_, ?_, ?_⟩
    · rw [ih1, hfields.1, List.length_cons]; omega
    · rw [ih2, hfields.2.1, List.length_cons]; omega
    · rw [ih3, List.getLastD_cons]

theorem take_append_len {γ : Type} {xs ys : List γ} {k : Nat} (h : xs.length = k) :
    (xs ++ ys).take k = xs := by
  subst h
  exact List.take_left xs ys

theorem drop_append_len {γ : Type} {xs ys : List γ} {k : Nat} (h : xs.length = k) :
    (xs ++ ys).drop k = ys := by
  subst h
  exact List.drop_left xs ys

/-! ### The claims -/

/-- Claim C1: for every finite set of reliable frames with distinct
sequence numbers `{0, 1, …, n}` (0 being the channel's initial expected
value) fed to the reorder engine in any arrival order, the
application-visible delivery sequence on the reliable channel is exactly
`0, 1, …, n` — strictly increasing, contiguous and duplicate-free. -/
theorem reliable_order_law {β : Type} (f : Nat → β) (n : Nat) (arr : List Nat)
    (hperm : arr.Perm (List.range (n + 1))) :
    (relRun f ⟨[], 0⟩ arr).1 = (List.range (n + 1)).map (fun s => (s, f s)) := by
  have hnd : arr.Nodup := hperm.nodup_iff.mpr (List.nodup_range _)
  have hinv0 : EngInv f [] (⟨[], 0⟩ : RelEngine β) := by
    refine ⟨?_, ?_, ?_⟩
    · intro s; simp
    · simp
    · intro s hs; simp at hs
  obtain ⟨hinv, hle, hout⟩ :=
    relRun_inv f arr [] ⟨[], 0⟩ hnd (by intro x _ hx; simp at hx) hinv0
  have hmem : ∀ s, s ∈ arr ↔ s < n + 1 := by
    intro s
    rw [hperm.mem_iff, List.mem_range]
  obtain ⟨h1, h2, h3⟩ := hinv
  have h2a : (relRun f ⟨[], 0⟩ arr).2.expected ∉ arr := by
    intro hx
    exact h2 (List.mem_append.mpr (Or.inl hx))
  have h3a : ∀ s, s < (relRun f ⟨[], 0⟩ arr).2.expected → s ∈ arr := by
    intro s hs
    rcases List.mem_append.mp (h3 s hs) with h | h
    · exact h
    · simp at h
  have he : (relRun f ⟨[], 0⟩ arr).2.expected = n + 1 := by
    rcases Nat.lt_or_ge (relRun f ⟨[], 0⟩ arr).2.expected (n + 1) with h | h
    · exact absurd ((hmem _).mpr h) h2a
    · rcases Nat.eq_or_lt_of_le h with h | h
      · exact h.symm
      · have := (hmem (n + 1)).mp (h3a (n + 1) h)
        omega
  rw [hout, he]
  simp [List.range_eq_range']

/-- Witness for C1 at the concrete arrival order `[1, 2, 0]` of
`{0, 1, 2}` (the spec's Scenario A). -/
theorem reliable_order_law_witness :
    ([1, 2, 0] : List Nat).Perm (List.range 3) ∧
    (relRun (fun s => s * 10) (⟨[], 0⟩ : RelEngine Nat) [1, 2, 0]).1
      = (List.range 3).map (fun s => (s, s * 10)) :=
  ⟨by decide, reliable_order_law (fun s => s * 10) 2 [1, 2, 0] (by decide)⟩

/-- Claim C2: for all valid inputs — `c ∈ {0, 1}`, `s` a uint16, `t` a
uint64 — `decode (encode c s t p) = (c, s, t, p)`: the 11-byte header
(1-byte channel tag, 2-byte big-endian seq, 8-byte big-endian millisecond
timestamp) followed by the payload round-trips through the codec. -/
theorem codec_round_trip (c s t : Nat) (p : List Nat) (hc : c = 0 ∨ c = 1)
    (hs : s < 2 ^ 16) (ht : t < 2 ^ 64) :
    decode (encode c s t p) = some (c, s, t, p) := by
  have hc' : c < 256 := by rcases hc with h | h <;> omega
  have hb1 : toBytesBE 1 c = [c] := by
    show toBytesBE 0 (c / 256) ++ [c % 256] = [c]
    rw [Nat.mod_eq_of_lt hc']
    rfl
  have hlen2 : (toBytesBE 2 s).length = 2 := length_toBytesBE 2 s
  have hlen8 : (toBytesBE 8 t).length = 8 := length_toBytesBE 8 t
  have hassoc : encode c s t p = [c] ++ (toBytesBE 2 s ++ (toBytesBE 8 t ++ p)) := by
    rw [encode, hb1]
    simp [List.append_assoc]
  have hA : encode c s t p = ([c] ++ toBytesBE 2 s) ++ (toBytesBE 8 t ++ p) := by
    rw [encode, hb1]
    simp [List.append_assoc]
  have hB : encode c s t p = (([c] ++ toBytesBE 2 s) ++ toBytesBE 8 t) ++ p := by
    rw [encode, hb1]
  have hlen : (encode c s t p).length = 11 + p.length := by
    rw [hassoc]
    simp only [List.length_append, List.length_cons, List.length_nil, hlen2, hlen8]
    omega
  have hs2 : s < 256 ^ 2 := by
    have : (256 : Nat) ^ 2 = 2 ^ 16 := by norm_num
    omega
  have ht2 : t < 256 ^ 8 := by
    have : (256 : Nat) ^ 8 = 2 ^ 64 := by norm_num
    omega
  unfold decode
  rw [if_neg (by omega)]
  rw [show (encode c s t p).headD 0 = c by rw [hassoc]; rfl]
  rw [show (encode c s t p).drop 1 = toBytesBE 2 s ++ (toBytesBE 8 t ++ p) by
    rw [hassoc]; exact drop_append_len rfl]
  rw [take_append_len hlen2]
  rw [show (encode c s t p).drop 3 = toBytesBE 8 t ++ p by
    rw [hA]; exact drop_append_len (by simp [hlen2])]
  rw [take_append_len hlen8]
  rw [show (encode c s t p).drop 11 = p by
    rw [hB]; exact drop_append_len (by simp [hlen2, hlen8])]
  rw [fromBytesBE_toBytesBE hs2, fromBytesBE_toBytesBE ht2]

/-- Witness for C2 at `(1, 5, 1000, "hi")`. -/
theorem codec_round_trip_witness :
    ((1 : Nat) = 0 ∨ (1 : Nat) = 1) ∧ (5 : Nat) < 2 ^ 16 ∧ (1000 : Nat) < 2 ^ 64 ∧
    decode (encode 1 5 1000 [104, 105]) = some (1, 5, 1000, [104, 105]) :=
  ⟨Or.inr rfl, by decide, by decide,
    codec_round_trip 1 5 1000 [104, 105] (Or.inr rfl) (by decide) (by decide)⟩

/-- Counterexample to C3 as stated: after the reliable frame with seq 0
has been delivered (`expected_seq = 1`), handing the engine the same
frame again (seq `0 < expected_seq`, a duplicate) invokes no callback —
but it is not side-effect free: the frame is stored in the reorder buffer
and the metrics change, contradicting "the reorder buffer … and metrics
are unchanged". -/
theorem late_frame_counterexample :
    ((handlePacket jsonParseModel 0 0
        ((handlePacket jsonParseModel 0 0 (initPState (List Nat))
          (encode 1 0 5 [53]) true).1)
        (encode 1 0 5 [53]) true).2.1.calls = []) ∧
    fromBytesBE (((encode 1 0 5 [53]).drop 1).take 2)
      < ((handlePacket jsonParseModel 0 0 (initPState (List Nat))
          (encode 1 0 5 [53]) true).1).expected_seq ∧
    ((handlePacket jsonParseModel 0 0
        ((handlePacket jsonParseModel 0 0 (initPState (List Nat))
          (encode 1 0 5 [53]) true).1)
        (encode 1 0 5 [53]) true).1.reliable_buffer
      ≠ ((handlePacket jsonParseModel 0 0 (initPState (List Nat))
          (encode 1 0 5 [53]) true).1).reliable_buffer) ∧
    ((handlePacket jsonParseModel 0 0
        ((handlePacket jsonParseModel 0 0 (initPState (List Nat))
          (encode 1 0 5 [53]) true).1)
        (encode 1 0 5 [53]) true).1.relMetrics
      ≠ ((handlePacket jsonParseModel 0 0 (initPState (List Nat))
          (encode 1 0 5 [53]) true).1).relMetrics) := by
  decide

/-- Claim C3, amended: a received reliable frame whose sequence number is
strictly below `expected_seq` (late/duplicate) triggers no application
callback — then, and never in any later processing, since deliveries only
happen at or above the monotone `expected_seq` — and leaves `expected_seq`
unchanged; but it is not side-effect free: the frame is stored in the
reorder buffer under its (stale) sequence number and the arrival metrics
are updated (`packets_received`, `bytes_received` and an RTT sample). -/
theorem late_frame_amended {α : Type} (jsonParse : List Nat → Option α)
    (nowS nowMs : Int) (st : PState α) (packet : List Nat) (data : α)
    (hlen : 11 ≤ packet.length)
    (hch : packet.headD 0 = 1)
    (hparse : jsonParse (packet.drop 11) = some data)
    (hlt : fromBytesBE ((packet.drop 1).take 2) < st.expected_seq)
    (hclean : lookupKV st.expected_seq st.reliable_buffer = none) :
    ((handlePacket jsonParse nowS nowMs st packet true).2.1.calls = []) ∧
    ((handlePacket jsonParse nowS nowMs st packet true).1.expected_seq
      = st.expected_seq) ∧
    ((handlePacket jsonParse nowS nowMs st packet true).1.reliable_buffer
      = insertKV (fromBytesBE ((packet.drop 1).take 2))
          (data, ((fromBytesBE ((packet.drop 3).take 8) : Nat) : Int))
          st.reliable_buffer) ∧
    ((handlePacket jsonParse nowS nowMs st packet true).1.relMetrics
      = updateMetrics st.relMetrics nowS nowMs packet.length
          ((fromBytesBE ((packet.drop 3).take 8) : Nat) : Int)) ∧
    (∀ (evs : List Arrival) (c : List (String × FVal α) × Bool) (n : Nat),
      c ∈ (runPackets jsonParse
            (handlePacket jsonParse nowS nowMs st packet true).1 evs).2.calls →
      c.2 = true → callRecordSeq c = some (FVal.num n) →
      fromBytesBE ((packet.drop 1).take 2) < n) := by
  have hnone : lookupKV st.expected_seq
      (insertKV (fromBytesBE ((packet.drop 1).take 2))
        (data, ((fromBytesBE ((packet.drop 3).take 8) : Nat) : Int)) st.reliable_buffer)
      = none := by
    rw [lookupKV_insertKV, if_neg (by omega), hclean]
  have hmono : ∀ (evs : List Arrival) (c : List (String × FVal α) × Bool) (n : Nat),
      c ∈ (runPackets jsonParse
            (handlePacket jsonParse nowS nowMs st packet true).1 evs).2.calls →
      c.2 = true → callRecordSeq c = some (FVal.num n) →
      fromBytesBE ((packet.drop 1).take 2) < n := by
    intro evs c n hc hrel hn
    have hge := runPackets_reliable_calls_ge jsonParse evs _ c hc hrel n hn
    have hm := handlePacket_expected_mono jsonParse nowS nowMs st packet true
    omega
  refine ⟨?_, ?_, ?_, ?_, hmono⟩ <;>
  · unfold handlePacket
    rw [if_neg (by omega)]
    simp only [hparse, hch, eq_self_iff_true, if_true, setMetrics_buffer,
      setMetrics_expected]
    rw [drain_eq_none hnone]
    rfl

/-- Witness for C3 (amended) at the concrete duplicate frame with seq 0
against the reachable state with `expected_seq = 1` and an empty
buffer. -/
theorem late_frame_amended_witness :
    (11 ≤ (encode 1 0 5 [53]).length ∧ (encode 1 0 5 [53]).headD 0 = 1 ∧
      jsonParseModel ((encode 1 0 5 [53]).drop 11) = some [53] ∧
      fromBytesBE (((encode 1 0 5 [53]).drop 1).take 2)
        < (⟨[], 1, initPMetrics, initPMetrics⟩ : PState (List Nat)).expected_seq ∧
      lookupKV (⟨[], 1, initPMetrics, initPMetrics⟩ : PState (List Nat)).expected_seq
        (⟨[], 1, initPMetrics, initPMetrics⟩ : PState (List Nat)).reliable_buffer = none) ∧
    ((handlePacket jsonParseModel 0 0
        (⟨[], 1, initPMetrics, initPMetrics⟩ : PState (List Nat))
        (encode 1 0 5 [53]) true).2.1.calls = []) ∧
    ((handlePacket jsonParseModel 0 0
        (⟨[], 1, initPMetrics, initPMetrics⟩ : PState (List Nat))
        (encode 1 0 5 [53]) true).1.expected_seq
      = (⟨[], 1, initPMetrics, initPMetrics⟩ : PState (List Nat)).expected_seq) ∧
    ((handlePacket jsonParseModel 0 0
        (⟨[], 1, initPMetrics, initPMetrics⟩ : PState (List Nat))
        (encode 1 0 5 [53]) true).1.reliable_buffer
      = insertKV (fromBytesBE (((encode 1 0 5 [53]).drop 1).take 2))
          ([53], ((fromBytesBE (((encode 1 0 5 [53]).drop 3).take 8) : Nat) : Int))
          (⟨[], 1, initPMetrics, initPMetrics⟩ : PState (List Nat)).reliable_buffer) ∧
    ((handlePacket jsonParseModel 0 0
        (⟨[], 1, initPMetrics, initPMetrics⟩ : PState (List Nat))
        (encode 1 0 5 [53]) true).1.relMetrics
      = updateMetrics
          (⟨[], 1, initPMetrics, initPMetrics⟩ : PState (List Nat)).relMetrics
          0 0 (encode 1 0 5 [53]).length
          ((fromBytesBE (((encode 1 0 5 [53]).drop 3).take 8) : Nat) : Int)) ∧
    (∀ (evs : List Arrival) (c : List (String × FVal (List Nat)) × Bool) (n : Nat),
      c ∈ (runPackets jsonParseModel
            (handlePacket jsonParseModel 0 0
              (⟨[], 1, initPMetrics, initPMetrics⟩ : PState (List Nat))
              (encode 1 0 5 [53]) true).1 evs).2.calls →
      c.2 = true → callRecordSeq c = some (FVal.num n) →
      fromBytesBE (((encode 1 0 5 [53]).drop 1).take 2) < n) :=
  ⟨⟨by decide, by decide, by decide, by decide, by decide⟩,
    late_frame_amended jsonParseModel 0 0
      (⟨[], 1, initPMetrics, initPMetrics⟩ : PState (List Nat))
      (encode 1 0 5 [53]) [53] (by decide) (by decide) (by decide) (by decide) (by decide)⟩

/-- Counterexample to C4 as stated: the client sequencer sends from
counter 65535 and leaves the counter at 65536, not 0 — it does not wrap
at 65536. -/
theorem sequencer_wrap_counterexample :
    (clientSend 65535 3 [53] true).map (fun r => r.2) = some 65536 ∧
    (65536 : Nat) ≠ 0 := by
  decide

/-- Claim C4, amended: every send returns the channel's current counter
as the frame's sequence number and then post-increments it, but only the
server's reliable-channel counter wraps at 65536 (65535 → 0); the client
counters increment without wrapping (65535 → 65536, after which further
client sends fail on `to_bytes`), and server unreliable sends always
carry sequence number 0 and do not touch the counter. -/
theorem sequencer_amended (c ts : Nat) (p : List Nat) (reliable : Bool)
    (hc : c < 65536) (ht : ts < 2 ^ 64) :
    (clientSend c ts p reliable
      = some (encode (if reliable then 1 else 0) c ts p, c + 1)) ∧
    (serverSend c ts p true = some (encode 1 c ts p, (c + 1) % 65536)) ∧
    ((c + 1) % 65536 < 65536) ∧
    (c = 65535 → (c + 1) % 65536 = 0) ∧
    (c < 65535 → (c + 1) % 65536 = c + 1) ∧
    (serverSend c ts p false = some (encode 0 0 ts p, c)) ∧
    (clientSend 65536 ts p reliable = none) := by
  refine ⟨?_, ?_, ?_, ?_, ?_, ?_, ?_⟩
  · unfold clientSend
    rw [if_pos ⟨hc, ht⟩]
  · unfold serverSend
    simp only [if_pos rfl, eq_self_iff_true, if_true]
    rw [if_pos ⟨hc, ht⟩]
  · exact Nat.mod_lt _ (by norm_num)
  · intro h; omega
  · intro h
    rw [Nat.mod_eq_of_lt (by omega)]
  · simp [serverSend, ht]
    omega
  · unfold clientSend
    rw [if_neg (by omega)]

/-- Witness for C4 (amended) at the wrap point `c = 65535`. -/
theorem sequencer_amended_witness :
    ((65535 : Nat) < 65536 ∧ (3 : Nat) < 2 ^ 64) ∧
    ((clientSend 65535 3 [53] true
      = some (encode (if true then 1 else 0) 65535 3 [53], 65535 + 1)) ∧
    (serverSend 65535 3 [53] true = some (encode 1 65535 3 [53], (65535 + 1) % 65536)) ∧
    ((65535 + 1) % 65536 < 65536) ∧
    ((65535 : Nat) = 65535 → (65535 + 1) % 65536 = 0) ∧
    ((65535 : Nat) < 65535 → (65535 + 1) % 65536 = 65535 + 1) ∧
    (serverSend 65535 3 [53] false = some (encode 0 0 3 [53], 65535)) ∧
    (clientSend 65536 3 [53] true = none)) :=
  ⟨⟨by decide, by decide⟩,
    sequencer_amended 65535 3 [53] true (by decide) (by decide)⟩

/-- Claim C5: every received unreliable frame is delivered to the
application immediately and unconditionally in arrival order (one
out-of-order flag per arrival, in order), the delivered frame's
`out_of_order` flag is true exactly when its sequence number is at most
the highest sequence number seen before it (`maxSeqSeen`, -1 initially),
and `last_seq` always equals the running maximum — i.e. it is advanced to
`s` exactly when `s` exceeds it. -/
theorem unreliable_passthrough (arr : List AppArrival) :
    (appRun initAppMetrics arr).2.length = arr.length ∧
    (∀ i, (appRun initAppMetrics arr).2[i]? = (arr[i]?).map (fun a =>
      decide ((a.seq_no : Int) ≤ maxSeqSeen ((arr.take i).map AppArrival.seq_no)))) ∧
    (appRun initAppMetrics arr).1.last_seq = maxSeqSeen (arr.map AppArrival.seq_no) := by
  obtain ⟨h1, h2, h3⟩ := appRun_char arr initAppMetrics
  exact ⟨h1, h2, h3⟩

/-- Counterexample to C6 as stated: the record handed to the application
callback on a delivery has exactly the keys `seq_no`, `timestamp` and
`payload` — it contains no `out_of_order` field and no `channel` field
(the channel travels as a separate argument), contradicting "a record
containing seq, timestamp, payload, channel, and outOfOrder". -/
theorem delivery_record_counterexample :
    (deliverPacket 0 (initPState (List Nat)) [53] true 7 0).2.calls
      = [(formattedData 7 0 [53], true)] ∧
    lookupKV ("out_of_order") (formattedData 7 0 ([53] : List Nat)) = none ∧
    lookupKV ("channel") (formattedData 7 0 ([53] : List Nat)) = none := by
  decide

/-- Claim C6, amended: on every delivery on either channel, exactly one
acknowledgment frame carrying payload `{ack: "received", seq_echo: s}` is
emitted on the same channel as the delivered frame, and the registered
application handler is then invoked exactly once with a record containing
`seq_no`, `timestamp` and `payload`, the channel passed as a separate
argument; no `out_of_order` field is passed at this layer (out-of-order
detection happens in the application).  The acknowledgment is emitted as
a fire-and-forget task, so it cannot fail the delivery path. -/
theorem delivery_ack_amended {α : Type} (nowMs ts : Int) (st : PState α)
    (d : α) (rel : Bool) (s : Nat) :
    ((deliverPacket nowMs st d rel s ts).2.acks = [(rel, responsePayload s)]) ∧
    ((deliverPacket nowMs st d rel s ts).2.calls = [(formattedData s ts d, rel)]) ∧
    (lookupKV ("ack") (responsePayload s) = some (PVal.vStr ("received"))) ∧
    (lookupKV ("seq_echo") (responsePayload s) = some (PVal.vNat s)) ∧
    (lookupKV ("seq_no") (formattedData s ts d) = some (FVal.num s)) ∧
    (lookupKV ("timestamp") (formattedData s ts d) = some (FVal.time ts)) ∧
    (lookupKV ("payload") (formattedData s ts d) = some (FVal.pay d)) ∧
    (lookupKV ("out_of_order") (formattedData s ts d) = none) := by
  refine ⟨rfl, rfl, rfl, rfl, rfl, rfl, rfl, rfl⟩

/-- Claim C7: a raw frame shorter than the 11-byte header is dropped with
the format error and a well-formed-header frame whose payload does not
parse as the application encoding is dropped with the decode error; in
both cases no application callback is invoked, no acknowledgment is sent,
and the connection state (expected sequence, reorder buffer, metrics) is
completely unchanged — the handler returns normally rather than aborting
the connection. -/
theorem decode_failure_drop {α : Type} (jsonParse : List Nat → Option α)
    (nowS nowMs : Int) (st : PState α) (packet : List Nat) (reliable : Bool) :
    (packet.length < 11 →
      handlePacket jsonParse nowS nowMs st packet reliable
        = (st, ⟨[], []⟩, some DropReason.formatError)) ∧
    (11 ≤ packet.length → jsonParse (packet.drop 11) = none →
      handlePacket jsonParse nowS nowMs st packet reliable
        = (st, ⟨[], []⟩, some DropReason.decodeError)) := by
  constructor
  · intro h
    unfold handlePacket
    rw [if_pos h]
  · intro h hp
    unfold handlePacket
    rw [if_neg (by omega)]
    simp only [hp]

/-- Witness for C7: a 5-byte raw frame (the spec's Scenario C) and an
11-byte frame with an empty (unparsable) payload, both against the fresh
connection state. -/
theorem decode_failure_drop_witness :
    (([1, 2, 3, 4, 5] : List Nat).length < 11 ∧
      handlePacket jsonParseModel 0 0 (initPState (List Nat)) [1, 2, 3, 4, 5] true
        = (initPState (List Nat), ⟨[], []⟩, some DropReason.formatError)) ∧
    (11 ≤ (encode 1 0 5 ([] : List Nat)).length ∧
      jsonParseModel ((encode 1 0 5 ([] : List Nat)).drop 11) = none ∧
      handlePacket jsonParseModel 0 0 (initPState (List Nat))
          (encode 1 0 5 ([] : List Nat)) true
        = (initPState (List Nat), ⟨[], []⟩, some DropReason.decodeError)) :=
  ⟨⟨by decide,
      (decode_failure_drop jsonParseModel 0 0 (initPState (List Nat))
        [1, 2, 3, 4, 5] true).1 (by decide)⟩,
    ⟨by decide, by decide,
      (decode_failure_drop jsonParseModel 0 0 (initPState (List Nat))
        (encode 1 0 5 ([] : List Nat)) true).2 (by decide) (by decide)⟩⟩

/-- Counterexample to C8 as stated: at the protocol layer, feed the
reliable channel the frame with seq 1 (buffered ahead, not delivered)
and then the frame with seq 0.  Both arrivals append RTT samples, but no
jitter sample is ever recorded (`last_rtt` is still unset at the second
arrival because it is only written on delivery), so the jitter count is
0 ≠ max(0, rttSampleCount - 1) = 1. -/
theorem jitter_count_counterexample :
    ((handlePacket jsonParseModel 0 0
        ((handlePacket jsonParseModel 0 0 (initPState (List Nat))
          (encode 1 1 0 [53]) true).1)
        (encode 1 0 0 [54]) true).1.relMetrics.rtt_samples.length = 2) ∧
    ((handlePacket jsonParseModel 0 0
        ((handlePacket jsonParseModel 0 0 (initPState (List Nat))
          (encode 1 1 0 [53]) true).1)
        (encode 1 0 0 [54]) true).1.relMetrics.jitter_samples.length = 0) ∧
    ((0 : Nat) ≠ max 0 (2 - 1)) := by
  decide

/-- Claim C8, amended: for the application-level metrics engine
(`ChannelMetrics.add_rtt`), which updates `last_rtt` on every call, the
law holds: after any sequence of samples the jitter count equals
`max(0, rttSampleCount - 1)` (the first sample never produces a jitter
value) and `last_rtt` holds the most recent sample.  At the protocol
layer (`_update_metrics`) `last_rtt` is only written on delivery, so a
buffered out-of-order reliable arrival breaks the law (see the
counterexample). -/
theorem jitter_count_amended (l : List ℚ) :
    ((rttRun initAppMetrics l).jitter_samples.length
      = (rttRun initAppMetrics l).rtts.length - 1) ∧
    ((rttRun initAppMetrics l).rtts.length = l.length) ∧
    ((rttRun initAppMetrics l).last_rtt = match l with
      | [] => none
      | r :: rest => some (rest.getLastD r)) := by
  cases l with
  | nil => exact ⟨rfl, rfl, rfl⟩
  | cons r rest =>
    have hfirst : (add_rtt initAppMetrics r).last_rtt = some r := rfl
    obtain ⟨h1, h2, h3⟩ := rttRun_some rest (add_rtt initAppMetrics r) r hfirst
    have hstep : rttRun initAppMetrics (r :: rest) = rttRun (add_rtt initAppMetrics r) rest := rfl
    refine ⟨?_, ?_, ?_⟩
    · rw [hstep, h1, h2]
      have hj : (add_rtt initAppMetrics r).jitter_samples.length = 0 := rfl
      have hrt : (add_rtt initAppMetrics r).rtts.length = 1 := rfl
      rw [hj, hrt]
      omega
    · rw [hstep, h2]
      have hrt : (add_rtt initAppMetrics r).rtts.length = 1 := rfl
      rw [hrt, List.length_cons]
      omega
    · rw [hstep, h3]

/-- Counterexample to C9 as stated: the application-level snapshot
computes `received / delivered * 100`, the reciprocal of the claimed
`delivered / received`: at counters received = 2, delivered = 1 it
reports 200, while the claimed ratio is 50. -/
theorem pdr_counterexample :
    app_pdr 2 1 = 200 ∧ ((1 : ℚ) / 2) * 100 = 50 ∧
    app_pdr 2 1 ≠ ((1 : ℚ) / 2) * 100 := by
  norm_num [app_pdr]

/-- Claim C9, amended: the application-level snapshot computes
`received / delivered * 100` — the reciprocal of the claimed
`delivered / received` — but on every reachable application state the
receive and delivery counters are equal (each handled frame bumps both),
so the reported value equals the claimed ratio there; the protocol-level
snapshot reports `received / sent * 100` (the claim's alternative form);
and the throughput is 0 when the channel never started or no time has
elapsed since its start. -/
theorem pdr_throughput_amended (arr : List AppArrival) (b : Nat) (now : ℚ)
    (r sent : Nat) :
    ((appRun initAppMetrics arr).1.packets_received
      = (appRun initAppMetrics arr).1.packets_delivered) ∧
    (app_pdr (appRun initAppMetrics arr).1.packets_received
        (appRun initAppMetrics arr).1.packets_delivered
      = ((appRun initAppMetrics arr).1.packets_delivered : ℚ)
          / ((appRun initAppMetrics arr).1.packets_received : ℚ) * 100) ∧
    (throughput_bps b none now = 0) ∧
    (throughput_bps b (some now) now = 0) ∧
    (proto_pdr r (sent + 1) = (r : ℚ) / ((sent : ℚ) + 1) * 100) := by
  obtain ⟨hr, hd⟩ := appRun_counters arr initAppMetrics
  have hrd : (appRun initAppMetrics arr).1.packets_received
      = (appRun initAppMetrics arr).1.packets_delivered := by
    rw [hr, hd]
    simp [initAppMetrics]
  refine ⟨hrd, ?_, rfl, ?_, ?_⟩
  · rw [hrd]
    unfold app_pdr
    by_cases h : 0 < (appRun initAppMetrics arr).1.packets_delivered
    · rw [if_pos h]
    · rw [if_neg h]
      have : (appRun initAppMetrics arr).1.packets_delivered = 0 := by omega
      rw [this]
      norm_num
  · unfold throughput_bps
    simp
  · unfold proto_pdr
    rw [if_pos (Nat.succ_pos sent)]
    push_cast
    ring

/-- Counterexample to C10 as stated: an 11-byte frame whose (empty)
payload is not valid JSON is not delivered by the client handler even
though its length is at least 11 — "every received frame of length at
least 11 bytes … is delivered" fails. -/
theorem client_passthrough_counterexample :
    11 ≤ (List.replicate 11 0 : List Nat).length ∧
    clientHandleStream jsonParseModel (List.replicate 11 0) = none := by
  decide

/-- Claim C10, amended: on the client endpoint, every received frame of
length at least 11 bytes on either channel whose payload slice parses as
the application encoding is delivered to the callback immediately with
only that payload — the result is exactly the parse of `data[11:]`, both
channel handlers behave identically, and the header is never inspected:
the outcome depends only on the payload slice.  Hence the client performs
no reordering, no duplicate suppression, no out-of-order flagging and no
metrics accumulation. -/
theorem client_passthrough_amended {α : Type} (jsonParse : List Nat → Option α)
    (d : List Nat) (h : 11 ≤ d.length) :
    (clientHandleStream jsonParse d = jsonParse (d.drop 11)) ∧
    (clientHandleDatagram jsonParse d = jsonParse (d.drop 11)) ∧
    (∀ d2 : List Nat, 11 ≤ d2.length → d.drop 11 = d2.drop 11 →
      clientHandleStream jsonParse d = clientHandleStream jsonParse d2) := by
  refine ⟨?_, ?_, ?_⟩
  · unfold clientHandleStream
    rw [if_neg (by omega)]
  · unfold clientHandleDatagram
    rw [if_neg (by omega)]
  · intro d2 h2 heq
    unfold clientHandleStream
    rw [if_neg (by omega), if_neg (by omega), heq]

/-- Witness for C10 (amended) at a concrete 12-byte frame carrying the
payload `"5"`. -/
theorem client_passthrough_amended_witness :
    (11 ≤ (encode 0 7 0 [53]).length) ∧
    ((clientHandleStream jsonParseModel (encode 0 7 0 [53])
        = jsonParseModel ((encode 0 7 0 [53]).drop 11)) ∧
     (clientHandleDatagram jsonParseModel (encode 0 7 0 [53])
        = jsonParseModel ((encode 0 7 0 [53]).drop 11)) ∧
     (∀ d2 : List Nat, 11 ≤ d2.length →
        (encode 0 7 0 [53]).drop 11 = d2.drop 11 →
        clientHandleStream jsonParseModel (encode 0 7 0 [53])
          = clientHandleStream jsonParseModel d2)) :=
  ⟨by decide, client_passthrough_amended jsonParseModel (encode 0 7 0 [53]) (by decide)⟩

end HQuic
